import Mathlib

/-!
Verification of the Songbook lyric-suggestion backend (`api-python`).

Strings are embedded as `List Char`.  The Python string primitives used by
the code (`str.splitlines`, `re.sub(r"\s+", " ", ·)`, `str.strip`,
`str.strip("\"'` ")`, slicing `[:n]`) are modelled faithfully below, with
character classes taken from CPython (`Py_UNICODE_ISSPACE` and the
`str.splitlines` line-boundary set).
-/

namespace Songbook

/-- CPython `Py_UNICODE_ISSPACE`: the character class matched by the regex
`\s` on `str` patterns and stripped by no-argument `str.strip()`. -/
def pyIsSpace (c : Char) : Bool :=
  decide (9 ≤ c.toNat ∧ c.toNat ≤ 13) || decide (28 ≤ c.toNat ∧ c.toNat ≤ 31) ||
  decide (c.toNat = 32) || decide (c.toNat = 133) || decide (c.toNat = 160) ||
  decide (c.toNat = 5760) || decide (8192 ≤ c.toNat ∧ c.toNat ≤ 8202) ||
  decide (c.toNat = 8232) || decide (c.toNat = 8233) || decide (c.toNat = 8239) ||
  decide (c.toNat = 8287) || decide (c.toNat = 12288)

/-- The line-boundary characters of Python `str.splitlines`:
LF, VT, FF, CR, FS, GS, RS, NEL, LINE SEPARATOR, PARAGRAPH SEPARATOR. -/
def pyIsLineBoundary (c : Char) : Bool :=
  decide (10 ≤ c.toNat ∧ c.toNat ≤ 13) || decide (28 ≤ c.toNat ∧ c.toNat ≤ 30) ||
  decide (c.toNat = 133) || decide (c.toNat = 8232) || decide (c.toNat = 8233)

/-- The character set of `line.strip("\"'` ")` in `_postprocess_single_line`:
double quote (34), single quote (39), backtick (96), space (32). -/
def isWrapChar (c : Char) : Bool :=
  decide (c.toNat = 34) || decide (c.toNat = 39) ||
  decide (c.toNat = 96) || decide (c.toNat = 32)

/-- Worker for `pySplitlines`: `acc` holds the current line reversed.
A `"\r\n"` pair counts as a single boundary; a `"\r"` at the end of input
emits the pending line and stops. -/
def pySplitGo (acc : List Char) : List Char → List (List Char)
  | [] => if acc = [] then [] else [acc.reverse]
  | c :: cs =>
    if pyIsLineBoundary c then
      if c.toNat = 13 then
        match cs with
        | [] => [acc.reverse]
        | d :: ds =>
          if d.toNat = 10 then acc.reverse :: pySplitGo [] ds
          else acc.reverse :: pySplitGo [] (d :: ds)
      else acc.reverse :: pySplitGo [] cs
    else pySplitGo (c :: acc) cs

/-- Python `text.splitlines()`: split at line-boundary characters, with
`"\r\n"` counting as a single boundary; a trailing boundary produces no
trailing empty line, and the empty string yields the empty list. -/
def pySplitlines (s : List Char) : List (List Char) :=
  pySplitGo [] s

/-- Worker for `collapseWs`; `inRun` records whether the previous character
was part of a whitespace run that has already been replaced by a space. -/
def collapseWsAux (inRun : Bool) : List Char → List Char
  | [] => []
  | c :: cs =>
    if pyIsSpace c then
      if inRun then collapseWsAux true cs
      else Char.ofNat 32 :: collapseWsAux true cs
    else c :: collapseWsAux false cs

/-- Model of `re.sub(r"\s+", " ", line)`: replace every maximal run of
whitespace characters by a single space. -/
def collapseWs (s : List Char) : List Char :=
  collapseWsAux false s

/-- Remove the longest suffix of characters satisfying `p`. -/
def stripEnd (p : Char → Bool) (s : List Char) : List Char :=
  (s.reverse.dropWhile p).reverse

/-- Python `str.strip` with the character class `p`: drop the longest
prefix and suffix of characters satisfying `p`. -/
def stripChars (p : Char → Bool) (s : List Char) : List Char :=
  stripEnd p (s.dropWhile p)

/-- The sanitisation applied by `_postprocess_single_line` after the first
line has been selected: collapse whitespace runs, `strip()`, strip the
wrapping characters `"\"'` "`, and hard-cap at 180 characters. -/
def sanitizeCore (line : List Char) : List Char :=
  (stripChars isWrapChar (stripChars pyIsSpace (collapseWs line))).take 180

/-- Function `_postprocess_single_line` from `Services/llm.py`.  `text.splitlines()[0]`
raises `IndexError` exactly when `text` is empty (`splitlines` then returns
the empty list), modelled by `none`. -/
def _postprocess_single_line (text : List Char) : Option (List Char) :=
  match pySplitlines text with
  | [] => none
  | line :: _ => some (sanitizeCore line)

/-- The request dictionary handed to `inspire_one_line`.  String-valued
entries are `Option (List Char)`: `none` stands for a Python `None` value
(for the hint fields this also covers an absent key, which `dict.get`
reports the same way on the truthiness checks used by the code).  The
remaining `SuggestRequest` fields (`songId`, `useReferences`, `temperature`,
`k`, `minSim`, `mmr`, `stream`) ride along untouched; the two float fields
are carried as rationals, which is harmless since the code never computes
with them. -/
structure Payload where
  userLyrics : Option (List Char)
  contextFocus : Option (List Char)
  contextFull : Option (List Char)
  style : Option (List Char)
  mood : Option (List Char)
  scheme : Option (List Char)
  syllables : Option (List Char)
  sectionKind : Option (List Char)
  songId : Option (List Char)
  useReferences : Bool
  temperature : ℚ
  k : Int
  minSim : ℚ
  mmr : Bool
  stream : Bool
deriving DecidableEq, Repr

/-- Python truthiness of an optional string: `None` and `""` are falsy. -/
def truthy (v : Option (List Char)) : Bool :=
  match v with
  | none => false
  | some s => !s.isEmpty

/-- Function `_hints_from_payload` from `Services/llm.py`: append, in fixed
order, one `"<Label>: <value>"` part per truthy hint field, and prefix
`"HINTS:\n"` when at least one part exists. -/
def _hints_from_payload (p : Payload) : List Char :=
  let parts : List (List Char) :=
    (if truthy p.style then ["Style: ".toList ++ p.style.getD []] else []) ++
    (if truthy p.mood then ["Mood: ".toList ++ p.mood.getD []] else []) ++
    (if truthy p.scheme then ["Rhyme scheme: ".toList ++ p.scheme.getD []] else []) ++
    (if truthy p.syllables then ["Target syllables: ".toList ++ p.syllables.getD []] else []) ++
    (if truthy p.sectionKind then ["Section: ".toList ++ p.sectionKind.getD []] else [])
  if parts.isEmpty then [] else "HINTS:\n".toList ++ List.intercalate " | ".toList parts

/-- The `inputs` dictionary that `inspire_one_line` feeds to the prompt
template.  `userLyrics` and `contextFocus` go through `payload.get(k, "") or
""` (any falsy value becomes `""`), while `contextFull` uses a bare
`payload.get("contextFull", "")`, so a `None` value flows through
unconverted — hence the `Option` type of that field. -/
structure PromptInputs where
  userLyrics : List Char
  contextFocus : List Char
  contextFull : Option (List Char)
  hints : List Char
deriving DecidableEq, Repr

/-- Assembly of the prompt inputs inside `inspire_one_line`. -/
def assembleInputs (p : Payload) : PromptInputs :=
  { userLyrics := p.userLyrics.getD []
    contextFocus := p.contextFocus.getD []
    contextFull := p.contextFull
    hints := _hints_from_payload p }

/-- The two ways `inspire_one_line` can raise: the explicit
`Exception("No response from LLM")` on an empty raw completion, and the
`IndexError` that `_postprocess_single_line` would raise on an empty
argument (modelled for completeness; it is proved unreachable). -/
inductive LlmError where
  | noResponse
  | indexError
deriving DecidableEq, Repr

/-- Function `inspire_one_line` from `Services/llm.py`, with the external
chain `_CHAIN.invoke` abstracted as the function argument `invoke` (the
`StrOutputParser` at the end of the chain makes its result a plain string).
After the `raw == ""` check, `getattr(raw, "content", raw) or ""` is the
identity on the non-empty string `raw`, so the sanitiser receives `raw`
itself.  The diagnostic second model call taken on the empty-response path
only prints and does not affect the raised error, so it is not modelled. -/
def inspire_one_line (invoke : PromptInputs → List Char) (payload : Payload) :
    Except LlmError (List Char) :=
  let inputs := assembleInputs payload
  let raw := invoke inputs
  if raw.isEmpty then Except.error LlmError.noResponse
  else
    match _postprocess_single_line raw with
    | some line => Except.ok line
    | none => Except.error LlmError.indexError

/-- The `IngestSnapshot` request model from `schemas.py`. -/
structure IngestSnapshot where
  songId : List Char
  version : Int
  title : Option (List Char)
  text : List Char
  authoredByDefault : List Char
deriving DecidableEq, Repr

/-- Function `split_lines` from `main.py`:
`[ln.strip() for ln in full_text.splitlines() if ln.strip()]`. -/
def split_lines (full_text : List Char) : List (List Char) :=
  (pySplitlines full_text).filterMap (fun ln =>
    let s := stripChars pyIsSpace ln
    if s.isEmpty then none else some s)

/-- The response dictionary of the `/ingest/snapshot` route. -/
structure IngestResult where
  ok : Bool
  linesProcessed : Nat
deriving DecidableEq, Repr

/-- Route handler `ingest_snapshot` from `main.py`: a stub that only counts
the non-empty stripped lines of the submitted text. -/
def ingest_snapshot (payload : IngestSnapshot) : IngestResult :=
  { ok := true
    linesProcessed := (split_lines payload.text).length }

/-- The `SuggestRequest` model from `schemas.py` (all fields, including the
retrieval-tuning parameters the stub never reads; floats as rationals). -/
structure SuggestRequest where
  userLyrics : List Char
  contextFocus : List Char
  contextFull : List Char
  style : List Char
  mood : List Char
  scheme : List Char
  syllables : List Char
  songId : Option (List Char)
  sectionKind : Option (List Char)
  useReferences : Bool
  temperature : ℚ
  k : Int
  minSim : ℚ
  mmr : Bool
  stream : Bool
deriving DecidableEq, Repr

/-- The `tokens` dictionary of a `SuggestResponse`. -/
structure TokenStats where
  prompt : Nat
  completion : Nat
  total : Nat
deriving DecidableEq, Repr

/-- The `SuggestResponse` model from `schemas.py`. -/
structure SuggestResponse where
  suggestion : List Char
  usedVoiceIds : List (List Char)
  usedReferenceIds : List (List Char)
  tokens : TokenStats
  latencyMs : Nat
deriving DecidableEq, Repr

/-- The fixed suffix appended by the `/suggest` stub. -/
def streetlightSuffix : List Char :=
  " — and the streetlights shake the snow from their sleeves".toList

/-- Route handler `suggest` from `main.py`.  The handler is a stub: it
never touches the language model (`invoke` is accepted to mirror the
available collaborator but is unused), strips the user lyrics, appends the
fixed suffix, keeps the first line and caps it at 280 characters.
`latencyMs` is wall-clock time, taken here as a parameter.  `fake_line`
is never empty (the suffix is not empty), so `splitlines()[0]` cannot
fault; the `.headD []` default is unreachable. -/
def suggest (invoke : PromptInputs → List Char) (req : SuggestRequest)
    (latencyMs : Nat) : SuggestResponse :=
  let seed := stripChars pyIsSpace req.userLyrics
  let fake_line := seed ++ streetlightSuffix
  { suggestion := ((pySplitlines fake_line).headD []).take 280
    usedVoiceIds := []
    usedReferenceIds := []
    tokens := { prompt := 0, completion := 0, total := 0 }
    latencyMs := latencyMs }

/-- Spec reading of one hint entry (§4.1 step 1, §9 "silent field
coercion"): a hint is present when its optional value is neither absent
nor the empty string, and a present hint is rendered `"<Label>: <value>"`. -/
def renderHint (label : List Char) (v : Option (List Char)) : Option (List Char) :=
  match v with
  | none => none
  | some s => if s.isEmpty then none else some (label ++ ": ".toList ++ s)

/-- Spec reading of the hints annotation (§4.1 step 1, §8): exactly the
present hints, in the fixed order style, mood, scheme, syllables,
sectionKind, joined by `" | "` and prefixed by `"HINTS:\n"`; the empty
string when no hint is present.  Used only as the comparison point for the
code's `_hints_from_payload`. -/
def specHintsAnnotation (p : Payload) : List Char :=
  let parts := ([renderHint "Style".toList p.style,
                 renderHint "Mood".toList p.mood,
                 renderHint "Rhyme scheme".toList p.scheme,
                 renderHint "Target syllables".toList p.syllables,
                 renderHint "Section".toList p.sectionKind]).filterMap id
  if parts.isEmpty then [] else "HINTS:\n".toList ++ List.intercalate " | ".toList parts

/-- A concrete payload used by witnesses and counterexamples: the schema
defaults of `SuggestRequest` with empty lyrics hints absent. -/
def samplePayload : Payload :=
  { userLyrics := some "la la".toList
    contextFocus := some []
    contextFull := some []
    style := none
    mood := none
    scheme := none
    syllables := none
    sectionKind := none
    songId := none
    useReferences := false
    temperature := (9 : ℚ) / 10
    k := 6
    minSim := (18 : ℚ) / 100
    mmr := true
    stream := false }

/-- A raw model output whose whitespace-collapsed, stripped line is 182
characters long with a double quote at position 179: the 180-cap then cuts
right after that internal quote. -/
def truncationInput : List Char :=
  List.replicate 179 (Char.ofNat 97) ++ [Char.ofNat 34, Char.ofNat 32, Char.ofNat 98]

/-! ### Character-class facts -/

/-- Every line-boundary character is a whitespace character. -/
lemma boundary_isSpace {c : Char} (h : pyIsLineBoundary c = true) :
    pyIsSpace c = true := by
  simp only [pyIsLineBoundary, pyIsSpace, Bool.or_eq_true, decide_eq_true_eq] at h ⊢
  omega

/-- The space character is in the strip set of `strip("\"'` ")`. -/
lemma wrap_of_eq32 {c : Char} (h : c.toNat = 32) : isWrapChar c = true := by
  simp only [isWrapChar, Bool.or_eq_true, decide_eq_true_eq]
  omega

/-- The space character is not a line boundary. -/
lemma boundary_ne32 {c : Char} (h : c.toNat = 32) : pyIsLineBoundary c = false := by
  simp only [pyIsLineBoundary, Bool.or_eq_false_iff, decide_eq_false_iff_not]
  omega

/-- A character whose code is 32 is the space character. -/
lemma char_eq_space {c : Char} (h : c.toNat = 32) : c = Char.ofNat 32 := by
  have := Char.ofNat_toNat c
  rw [h] at this
  exact this.symm

/-! ### Generic list helpers (dropWhile, stripping, Chain') -/

/-- Adjacent characters are never both whitespace. -/
def NoTwoWs (a b : Char) : Prop :=
  ¬(pyIsSpace a = true ∧ pyIsSpace b = true)

lemma noTwoWs_symm {a b : Char} (h : NoTwoWs a b) : NoTwoWs b a := by
  intro ⟨h1, h2⟩
  exact h ⟨h2, h1⟩

lemma mem_dropWhileP {α : Type} {p : α → Bool} {l : List α} {c : α}
    (h : c ∈ l.dropWhile p) : c ∈ l := by
  induction l with
  | nil => simpa [List.dropWhile] using h
  | cons d ds ih =>
    rw [List.dropWhile_cons] at h
    by_cases hd : p d = true
    · rw [if_pos hd] at h
      exact List.mem_cons_of_mem _ (ih h)
    · rw [if_neg hd] at h
      exact h

lemma head?_dropWhileP {α : Type} {p : α → Bool} {l : List α} {c : α}
    (h : (l.dropWhile p).head? = some c) : p c = false := by
  induction l with
  | nil => simp [List.dropWhile] at h
  | cons d ds ih =>
    rw [List.dropWhile_cons] at h
    by_cases hd : p d = true
    · rw [if_pos hd] at h
      exact ih h
    · rw [if_neg hd] at h
      simp only [List.head?_cons, Option.some.injEq] at h
      subst h
      exact Bool.eq_false_iff.mpr hd

lemma dropWhileP_eq_self {α : Type} {p : α → Bool} {l : List α}
    (h : ∀ c, l.head? = some c → p c = false) : l.dropWhile p = l := by
  cases l with
  | nil => rfl
  | cons d ds =>
    rw [List.dropWhile_cons, if_neg]
    simp [h d rfl]

lemma chain'_dropWhileP {p : Char → Bool} {l : List Char}
    (h : List.Chain' NoTwoWs l) : List.Chain' NoTwoWs (l.dropWhile p) := by
  induction l with
  | nil => simpa [List.dropWhile]
  | cons d ds ih =>
    rw [List.dropWhile_cons]
    by_cases hd : p d = true
    · rw [if_pos hd]
      exact ih h.tail
    · rw [if_neg hd]
      exact h

lemma chain'_reverse_noTwoWs {l : List Char}
    (h : List.Chain' NoTwoWs l) : List.Chain' NoTwoWs l.reverse := by
  rw [List.chain'_reverse]
  exact h.imp (fun a b hab => noTwoWs_symm hab)

/-- Membership in the end-stripped list. -/
lemma mem_stripEnd {p : Char → Bool} {l : List Char} {c : Char}
    (h : c ∈ stripEnd p l) : c ∈ l := by
  unfold stripEnd at h
  rw [List.mem_reverse] at h
  have := mem_dropWhileP h
  rwa [List.mem_reverse] at this

/-- The last character of the end-stripped list does not satisfy `p`. -/
lemma getLast?_stripEnd {p : Char → Bool} {l : List Char} {c : Char}
    (h : (stripEnd p l).getLast? = some c) : p c = false := by
  unfold stripEnd at h
  rw [List.getLast?_reverse] at h
  exact head?_dropWhileP h

/-- `stripEnd p l` is a prefix of `l`: the stripped suffix is explicit. -/
lemma stripEnd_append {p : Char → Bool} (l : List Char) :
    l = stripEnd p l ++ (l.reverse.takeWhile p).reverse := by
  unfold stripEnd
  calc l = l.reverse.reverse := (List.reverse_reverse l).symm
    _ = (l.reverse.takeWhile p ++ l.reverse.dropWhile p).reverse := by
        rw [List.takeWhile_append_dropWhile]
    _ = (l.reverse.dropWhile p).reverse ++ (l.reverse.takeWhile p).reverse :=
        List.reverse_append _ _

/-- Stripping the end does not change the head. -/
lemma head?_stripEnd {p : Char → Bool} {l : List Char} {c : Char}
    (h : (stripEnd p l).head? = some c) : l.head? = some c := by
  cases hs : stripEnd p l with
  | nil => rw [hs] at h; simp at h
  | cons d ds =>
    rw [hs] at h
    simp only [List.head?_cons, Option.some.injEq] at h
    have hdecomp := stripEnd_append (p := p) l
    rw [hs] at hdecomp
    rw [hdecomp]
    simp [h]

lemma chain'_stripEnd {p : Char → Bool} {l : List Char}
    (h : List.Chain' NoTwoWs l) : List.Chain' NoTwoWs (stripEnd p l) := by
  unfold stripEnd
  exact chain'_reverse_noTwoWs (chain'_dropWhileP (chain'_reverse_noTwoWs h))

lemma stripEnd_eq_self {p : Char → Bool} {l : List Char}
    (h : ∀ c, l.getLast? = some c → p c = false) : stripEnd p l = l := by
  unfold stripEnd
  rw [dropWhileP_eq_self, List.reverse_reverse]
  intro c hc
  rw [List.head?_reverse] at hc
  exact h c hc

lemma mem_stripChars {p : Char → Bool} {l : List Char} {c : Char}
    (h : c ∈ stripChars p l) : c ∈ l :=
  mem_dropWhileP (mem_stripEnd h)

lemma head?_stripChars {p : Char → Bool} {l : List Char} {c : Char}
    (h : (stripChars p l).head? = some c) : p c = false := by
  unfold stripChars at h
  exact head?_dropWhileP (head?_stripEnd h)

lemma getLast?_stripChars {p : Char → Bool} {l : List Char} {c : Char}
    (h : (stripChars p l).getLast? = some c) : p c = false :=
  getLast?_stripEnd h

lemma chain'_stripChars {p : Char → Bool} {l : List Char}
    (h : List.Chain' NoTwoWs l) : List.Chain' NoTwoWs (stripChars p l) :=
  chain'_stripEnd (chain'_dropWhileP h)

lemma stripChars_eq_self {p : Char → Bool} {l : List Char}
    (hh : ∀ c, l.head? = some c → p c = false)
    (hl : ∀ c, l.getLast? = some c → p c = false) : stripChars p l = l := by
  unfold stripChars
  rw [dropWhileP_eq_self hh, stripEnd_eq_self hl]

lemma head?_take {α : Type} {l : List α} {n : Nat} {c : α}
    (h : (l.take n).head? = some c) : l.head? = some c := by
  cases n with
  | zero => simp at h
  | succ m =>
    cases l with
    | nil => simp at h
    | cons d ds =>
      simp only [List.take_succ_cons, List.head?_cons] at h ⊢
      exact h

/-! ### Facts about the whitespace collapse -/

/-- Every character of the collapsed string is either a space or a
non-whitespace character of the original. -/
lemma mem_collapseWsAux {c : Char} (b : Bool) (x : List Char)
    (h : c ∈ collapseWsAux b x) : c.toNat = 32 ∨ (c ∈ x ∧ pyIsSpace c = false) := by
  induction x generalizing b with
  | nil => simp [collapseWsAux] at h
  | cons d ds ih =>
    simp only [collapseWsAux] at h
    by_cases hd : pyIsSpace d = true
    · rw [if_pos hd] at h
      cases b with
      | true =>
        rcases ih true h with h32 | ⟨hm, hw⟩
        · exact Or.inl h32
        · exact Or.inr ⟨List.mem_cons_of_mem _ hm, hw⟩
      | false =>
        simp only [Bool.false_eq_true, if_false, List.mem_cons] at h
        rcases h with rfl | h'
        · exact Or.inl rfl
        · rcases ih true h' with h32 | ⟨hm, hw⟩
          · exact Or.inl h32
          · exact Or.inr ⟨List.mem_cons_of_mem _ hm, hw⟩
    · rw [if_neg hd] at h
      rcases List.mem_cons.mp h with rfl | h'
      · exact Or.inr ⟨List.mem_cons_self _ _, Bool.eq_false_iff.mpr hd⟩
      · rcases ih false h' with h32 | ⟨hm, hw⟩
        · exact Or.inl h32
        · exact Or.inr ⟨List.mem_cons_of_mem _ hm, hw⟩

/-- Inside a run (`inRun = true`) the collapse never emits a leading
whitespace character. -/
lemma head?_collapseWsAux_true {c : Char} (x : List Char)
    (h : (collapseWsAux true x).head? = some c) : pyIsSpace c = false := by
  induction x with
  | nil => simp [collapseWsAux] at h
  | cons d ds ih =>
    simp only [collapseWsAux] at h
    by_cases hd : pyIsSpace d = true
    · rw [if_pos hd] at h
      simp only [if_true] at h
      exact ih h
    · rw [if_neg hd] at h
      simp only [List.head?_cons, Option.some.injEq] at h
      subst h
      exact Bool.eq_false_iff.mpr hd

/-- The collapsed string never contains two adjacent whitespace characters. -/
lemma chain'_collapseWsAux (b : Bool) (x : List Char) :
    List.Chain' NoTwoWs (collapseWsAux b x) := by
  induction x generalizing b with
  | nil => simp [collapseWsAux]
  | cons d ds ih =>
    simp only [collapseWsAux]
    by_cases hd : pyIsSpace d = true
    · rw [if_pos hd]
      cases b with
      | true => simpa using ih true
      | false =>
        simp only [Bool.false_eq_true, if_false]
        refine List.chain'_cons'.mpr ⟨?_, ih true⟩
        intro y hy hcontra
        have hy' : (collapseWsAux true ds).head? = some y := hy
        exact absurd hcontra.2 (by simp [head?_collapseWsAux_true ds hy'])
    · rw [if_neg hd]
      refine List.chain'_cons'.mpr ⟨?_, ih false⟩
      intro y hy hcontra
      exact absurd hcontra.1 (by simp [Bool.eq_false_iff.mpr hd])

/-- On an already-collapsed string (whitespace only as single spaces, no
two adjacent), the collapse is the identity. -/
lemma collapseWsAux_eq_self (x : List Char)
    (hall : ∀ c ∈ x, pyIsSpace c = true → c.toNat = 32)
    (hch : List.Chain' NoTwoWs x) : collapseWsAux false x = x := by
  induction x with
  | nil => rfl
  | cons d ds ih =>
    simp only [collapseWsAux]
    by_cases hd : pyIsSpace d = true
    · rw [if_pos hd]
      simp only [Bool.false_eq_true, if_false]
      have hd32 : d.toNat = 32 := hall d (List.mem_cons_self _ _) hd
      have hds : collapseWsAux true ds = collapseWsAux false ds := by
        cases ds with
        | nil => rfl
        | cons e es =>
          have hne : pyIsSpace e = false := by
            have hre := (List.chain'_cons.mp hch).1
            by_contra hcon
            exact hre ⟨hd, by simpa using hcon⟩
          simp only [collapseWsAux, hne, Bool.false_eq_true, if_false]
      rw [hds, ih (fun c hc hw => hall c (List.mem_cons_of_mem _ hc) hw) hch.tail,
        ← char_eq_space hd32]
    · rw [if_neg hd]
      rw [ih (fun c hc hw => hall c (List.mem_cons_of_mem _ hc) hw) hch.tail]

lemma mem_of_head?' {α : Type} {l : List α} {c : α} (h : l.head? = some c) : c ∈ l := by
  cases l with
  | nil => cases h
  | cons d ds => simp_all

lemma mem_of_getLast?' {α : Type} {l : List α} {c : α} (h : l.getLast? = some c) :
    c ∈ l := by
  have : c ∈ l.reverse := mem_of_head?' (by rw [List.head?_reverse]; exact h)
  simpa using this

/-! ### Invariants of the sanitised line -/

/-- Every character of a sanitised line is a space or non-whitespace. -/
lemma mem_sanitizeCore {line : List Char} {c : Char}
    (h : c ∈ sanitizeCore line) : c.toNat = 32 ∨ pyIsSpace c = false := by
  unfold sanitizeCore at h
  have h1 : c ∈ collapseWs line :=
    mem_stripChars (mem_stripChars (List.Sublist.mem h (List.take_sublist _ _)))
  rcases mem_collapseWsAux false line h1 with h32 | ⟨_, hw⟩
  · exact Or.inl h32
  · exact Or.inr hw

/-- A sanitised line contains no line-boundary character. -/
lemma noBoundary_sanitizeCore {line : List Char} {c : Char}
    (h : c ∈ sanitizeCore line) : pyIsLineBoundary c = false := by
  rcases mem_sanitizeCore h with h32 | hw
  · exact boundary_ne32 h32
  · by_contra hcon
    have hws := boundary_isSpace (c := c) (by simpa using hcon)
    rw [hws] at hw
    cases hw

/-- The hard cap: a sanitised line has at most 180 characters. -/
lemma length_sanitizeCore (line : List Char) : (sanitizeCore line).length ≤ 180 := by
  unfold sanitizeCore
  rw [List.length_take]
  exact Nat.min_le_left _ _

/-- A sanitised line never has two adjacent whitespace characters. -/
lemma chain'_sanitizeCore (line : List Char) :
    List.Chain' NoTwoWs (sanitizeCore line) :=
  (chain'_stripChars (chain'_stripChars (chain'_collapseWsAux false line))).take 180

/-- The first character of a sanitised line is neither a wrapping character
nor whitespace. -/
lemma head?_sanitizeCore {line : List Char} {c : Char}
    (h : (sanitizeCore line).head? = some c) :
    isWrapChar c = false ∧ pyIsSpace c = false := by
  have hwrap : isWrapChar c = false := head?_stripChars (head?_take h)
  rcases mem_sanitizeCore (mem_of_head?' h) with h32 | hws
  · exact absurd hwrap (by simp [wrap_of_eq32 h32])
  · exact ⟨hwrap, hws⟩

/-- When the cap did not truncate (the result is shorter than 180), the
quote-stripped line fit inside the cap. -/
lemma no_truncation_of_short {line : List Char}
    (h : (sanitizeCore line).length < 180) :
    (stripChars isWrapChar (stripChars pyIsSpace (collapseWs line))).length ≤ 180 := by
  unfold sanitizeCore at h
  rw [List.length_take] at h
  by_cases hT : (stripChars isWrapChar (stripChars pyIsSpace (collapseWs line))).length ≤ 180
  · exact hT
  · exfalso
    rw [Nat.min_eq_left (Nat.le_of_not_le hT)] at h
    exact absurd h (lt_irrefl _)

/-- The last character of an untruncated sanitised line is neither a
wrapping character nor whitespace. -/
lemma getLast?_sanitizeCore {line : List Char} {c : Char}
    (hlen : (stripChars isWrapChar (stripChars pyIsSpace (collapseWs line))).length ≤ 180)
    (h : (sanitizeCore line).getLast? = some c) :
    isWrapChar c = false ∧ pyIsSpace c = false := by
  unfold sanitizeCore at h
  rw [List.take_of_length_le hlen] at h
  have hwrap : isWrapChar c = false := getLast?_stripChars h
  have hmem : c ∈ sanitizeCore line := by
    unfold sanitizeCore
    rw [List.take_of_length_le hlen]
    exact mem_of_getLast?' h
  rcases mem_sanitizeCore hmem with h32 | hws
  · exact absurd hwrap (by simp [wrap_of_eq32 h32])
  · exact ⟨hwrap, hws⟩

/-! ### The first line produced by splitlines -/

/-- The head of `pySplitGo acc t` is the pending line `acc` extended with
the longest boundary-free prefix of `t`. -/
lemma pySplitGo_head (t : List Char) : ∀ acc : List Char, acc ≠ [] ∨ t ≠ [] →
    ∃ rest, pySplitGo acc t =
      (acc.reverse ++ t.takeWhile (fun c => !pyIsLineBoundary c)) :: rest := by
  induction t with
  | nil =>
    intro acc h
    rcases h with h | h
    · refine ⟨[], ?_⟩
      rw [pySplitGo.eq_def]
      simp [h]
    · exact absurd rfl h
  | cons c cs ih =>
    intro acc _
    rw [pySplitGo.eq_def]
    by_cases hc : pyIsLineBoundary c = true
    · have htw : (c :: cs).takeWhile (fun x => !pyIsLineBoundary x) = [] := by
        simp [List.takeWhile_cons, hc]
      rw [htw]
      by_cases h13 : c.toNat = 13
      · cases cs with
        | nil => exact ⟨[], by simp [hc, h13]⟩
        | cons d ds =>
          by_cases hd : d.toNat = 10
          · exact ⟨pySplitGo [] ds, by simp [hc, h13, hd]⟩
          · exact ⟨pySplitGo [] (d :: ds), by simp [hc, h13, hd]⟩
      · exact ⟨pySplitGo [] cs, by simp [hc, h13]⟩
    · have htw : (c :: cs).takeWhile (fun x => !pyIsLineBoundary x) =
          c :: cs.takeWhile (fun x => !pyIsLineBoundary x) := by
        simp [List.takeWhile_cons, hc]
      rw [htw]
      rcases ih (c :: acc) (Or.inl (by simp)) with ⟨rest, hrest⟩
      refine ⟨rest, ?_⟩
      simp only [hc, Bool.false_eq_true, if_false]
      rw [hrest]
      simp

/-- For non-empty input, the first element of `pySplitlines` is the longest
boundary-free prefix (Python `text.splitlines()[0]`). -/
lemma pySplitlines_head {t : List Char} (h : t ≠ []) :
    ∃ rest, pySplitlines t =
      (t.takeWhile (fun c => !pyIsLineBoundary c)) :: rest := by
  rcases pySplitGo_head t [] (Or.inr h) with ⟨rest, hr⟩
  refine ⟨rest, ?_⟩
  unfold pySplitlines
  simpa using hr

/-- Closed form of the post-processing on non-empty input. -/
lemma postprocess_eq {t : List Char} (h : t ≠ []) :
    _postprocess_single_line t =
      some (sanitizeCore (t.takeWhile (fun c => !pyIsLineBoundary c))) := by
  rcases pySplitlines_head h with ⟨rest, hr⟩
  unfold _postprocess_single_line
  rw [hr]

/-- Any value returned by the post-processing is a sanitised line. -/
lemma postprocess_some_sanitize {t r : List Char}
    (h : _postprocess_single_line t = some r) : ∃ line, r = sanitizeCore line := by
  unfold _postprocess_single_line at h
  cases hs : pySplitlines t with
  | nil => rw [hs] at h; cases h
  | cons line rest =>
    rw [hs] at h
    simp only [Option.some.injEq] at h
    exact ⟨line, h.symm⟩

/-- On input satisfying all invariants of a sanitised (untruncated) line,
the post-processing is the identity. -/
lemma sanitizeCore_fixed {s : List Char} (hne : s ≠ [])
    (hmem : ∀ c ∈ s, c.toNat = 32 ∨ pyIsSpace c = false)
    (hch : List.Chain' NoTwoWs s)
    (hhead : ∀ c, s.head? = some c → isWrapChar c = false)
    (hlast : ∀ c, s.getLast? = some c → isWrapChar c = false)
    (hlen : s.length ≤ 180) :
    _postprocess_single_line s = some s := by
  rw [postprocess_eq hne]
  have htw : s.takeWhile (fun c => !pyIsLineBoundary c) = s := by
    rw [List.takeWhile_eq_self_iff]
    intro c hc
    simp only [Bool.not_eq_true']
    rcases hmem c hc with h32 | hws
    · exact boundary_ne32 h32
    · by_contra hcon
      have := boundary_isSpace (c := c) (by simpa using hcon)
      rw [this] at hws
      cases hws
  rw [htw]
  have hallws : ∀ c ∈ s, pyIsSpace c = true → c.toNat = 32 := by
    intro c hc hw
    rcases hmem c hc with h32 | hf
    · exact h32
    · rw [hw] at hf; cases hf
  have hheadws : ∀ c, s.head? = some c → pyIsSpace c = false := by
    intro c hc
    rcases hmem c (mem_of_head?' hc) with h32 | hf
    · exact absurd (hhead c hc) (by simp [wrap_of_eq32 h32])
    · exact hf
  have hlastws : ∀ c, s.getLast? = some c → pyIsSpace c = false := by
    intro c hc
    rcases hmem c (mem_of_getLast?' hc) with h32 | hf
    · exact absurd (hlast c hc) (by simp [wrap_of_eq32 h32])
    · exact hf
  unfold sanitizeCore
  have hcoll : collapseWs s = s := collapseWsAux_eq_self s hallws hch
  rw [show collapseWs s = s from hcoll,
    stripChars_eq_self hheadws hlastws, stripChars_eq_self hhead hlast,
    List.take_of_length_le hlen]


/-! ### Auxiliary lemmas for the hints assembly -/

lemma hint_part_eq (lab : List Char) (v : Option (List Char)) :
    (if truthy v then [lab ++ ": ".toList ++ v.getD []] else []) =
      (renderHint lab v).toList := by
  cases v with
  | none => rfl
  | some s =>
    by_cases hs : s.isEmpty
    · simp [truthy, renderHint, hs]
    · simp [truthy, renderHint, hs]

lemma filterMap_id_five {α : Type} (o1 o2 o3 o4 o5 : Option α) :
    List.filterMap id [o1, o2, o3, o4, o5] =
      o1.toList ++ (o2.toList ++ (o3.toList ++ (o4.toList ++ o5.toList))) := by
  cases o1 <;> cases o2 <;> cases o3 <;> cases o4 <;> cases o5 <;> rfl

lemma length_filterMap_eq_countP {α β : Type} (f : α → Option β) (l : List α) :
    (l.filterMap f).length = l.countP (fun a => (f a).isSome) := by
  induction l with
  | nil => rfl
  | cons x xs ih =>
    cases hx : f x with
    | none => simp [List.filterMap_cons, List.countP_cons, hx, ih]
    | some b => simp [List.filterMap_cons, List.countP_cons, hx, ih]

lemma length_filterMap_strip (ls : List (List Char)) :
    (ls.filterMap (fun ln =>
        let s := stripChars pyIsSpace ln
        if s.isEmpty then none else some s)).length =
      ls.countP (fun ln => !(stripChars pyIsSpace ln).isEmpty) := by
  rw [length_filterMap_eq_countP]
  apply List.countP_congr
  intro ln _
  by_cases hs : (stripChars pyIsSpace ln).isEmpty
  · simp [hs]
  · simp [hs]

/-! ### The claims -/

/-- C1, counterexample: the 180-character cap is applied after the
edge-stripping, so on `truncationInput` (whose cleaned line is 182
characters with an internal double quote at position 179) the sanitised
result ends with a double quote — a wrapping character — refuting the
claim that the result never has a trailing quote for every raw output. -/
theorem c1_counterexample :
    ((_postprocess_single_line truncationInput).getD []).getLast? =
        some (Char.ofNat 34) ∧
      isWrapChar (Char.ofNat 34) = true := by
  constructor
  · decide
  · decide


/-- C1 (amended): the sanitised result never begins with a double-quote,
single-quote, backtick, or whitespace character; and whenever its length is
below 180 — i.e. the defensive cap did not truncate — it also does not end
with one.  (Only the final truncation can expose such a trailing
character.)  Raw outputs wrapped in quotes/backticks with surrounding
spaces therefore have their wrapping characters stripped. -/
theorem c1_sanitized_edges (t r : List Char)
    (h : _postprocess_single_line t = some r) :
    (∀ c, r.head? = some c → (isWrapChar c || pyIsSpace c) = false) ∧
    (r.length < 180 →
      ∀ c, r.getLast? = some c → (isWrapChar c || pyIsSpace c) = false) := by
  rcases postprocess_some_sanitize h with ⟨line, rfl⟩
  constructor
  · intro c hc
    have hh := head?_sanitizeCore hc
    simp [hh.1, hh.2]
  · intro hlen c hc
    have hl := getLast?_sanitizeCore (no_truncation_of_short hlen) hc
    simp [hl.1, hl.2]

/-- Witness for C1 (amended) at a concrete wrapped raw output. -/
theorem c1_sanitized_edges_witness :
    (∀ c, ("hello world".toList).head? = some c →
        (isWrapChar c || pyIsSpace c) = false) ∧
    ("hello world".toList.length < 180 →
      ∀ c, ("hello world".toList).getLast? = some c →
        (isWrapChar c || pyIsSpace c) = false) :=
  c1_sanitized_edges "  'hello   world' ".toList "hello world".toList (by decide)

/-- C2, counterexample: a raw model output consisting of a single space is
non-empty, so it passes the `raw == ""` check, yet it sanitises to the
empty string, which `inspire_one_line` returns — refuting the claim that
the operation never returns an empty line for any raw model output. -/
theorem c2_counterexample :
    inspire_one_line (fun _ => [Char.ofNat 32]) samplePayload = Except.ok [] ∧
      [Char.ofNat 32] ≠ ([] : List Char) := by
  constructor
  · rfl
  · decide

/-- C2 (amended): if the raw model output is the empty string,
`inspire_one_line` raises the explicit "No response from LLM" error and
produces no result value; it never substitutes a placeholder.  (A
non-empty raw output that sanitises to the empty string — e.g. a lone
space — is however returned as an empty line.) -/
theorem c2_empty_raw_error (invoke : PromptInputs → List Char) (p : Payload)
    (h : invoke (assembleInputs p) = []) :
    inspire_one_line invoke p = Except.error LlmError.noResponse := by
  unfold inspire_one_line
  simp [h]

/-- Witness for C2 (amended) with a model stub returning nothing. -/
theorem c2_empty_raw_error_witness :
    inspire_one_line (fun _ => []) samplePayload = Except.error LlmError.noResponse :=
  c2_empty_raw_error (fun _ => []) samplePayload rfl

/-- C3, counterexample: the empty string is a sanitised output (it is
returned for the raw output `"\""`), but re-sanitising it does not return
it unchanged — `_postprocess_single_line` on the empty string faults
(`splitlines()[0]` raises `IndexError`), refuting idempotence as stated. -/
theorem c3_counterexample :
    _postprocess_single_line "\"".toList = some [] ∧
      _postprocess_single_line [] = none := by
  constructor
  · decide
  · rfl

/-- C3 (amended): sanitisation is idempotent on every sanitised output
that is non-empty and does not end in a double-quote, single-quote,
backtick, or space.  (The excluded outputs are exactly the empty result
and results whose trailing wrap character was exposed by the 180-character
truncation; every untruncated non-empty output re-sanitises unchanged.) -/
theorem c3_idempotent_on_clean (t s : List Char)
    (h : _postprocess_single_line t = some s) (hne : s ≠ [])
    (hlast : ∀ c, s.getLast? = some c → isWrapChar c = false) :
    _postprocess_single_line s = some s := by
  rcases postprocess_some_sanitize h with ⟨line, rfl⟩
  apply sanitizeCore_fixed hne
  · intro c hc
    exact mem_sanitizeCore hc
  · exact chain'_sanitizeCore line
  · intro c hc
    exact (head?_sanitizeCore hc).1
  · exact hlast
  · exact length_sanitizeCore line

/-- Witness for C3 (amended) at a concrete sanitised output. -/
theorem c3_idempotent_on_clean_witness :
    _postprocess_single_line "hello there".toList = some "hello there".toList :=
  c3_idempotent_on_clean "  hello   there \nrest".toList "hello there".toList
    (by decide) (by decide) (by decide)

/-- C4 (confirmed): the hints annotation assembled by the code agrees, for
every payload, with the spec reading `specHintsAnnotation` — exactly the
present hints (absent and empty-string values both count as absent),
rendered `"<Label>: <value>"` in the fixed order style, mood, scheme,
syllables, sectionKind, joined by `" | "` and prefixed by `"HINTS:\n"` —
and when no hint is present it returns the empty string, emitting no
`"HINTS:"` header. -/
theorem c4_hints_assembly (p : Payload) :
    _hints_from_payload p = specHintsAnnotation p ∧
    ((truthy p.style || truthy p.mood || truthy p.scheme ||
        truthy p.syllables || truthy p.sectionKind) = false →
      _hints_from_payload p = []) := by
  have hmain : _hints_from_payload p = specHintsAnnotation p := by
    unfold _hints_from_payload specHintsAnnotation
    rw [filterMap_id_five]
    rw [show "Style: ".toList = "Style".toList ++ ": ".toList from by decide,
      show "Mood: ".toList = "Mood".toList ++ ": ".toList from by decide,
      show "Rhyme scheme: ".toList = "Rhyme scheme".toList ++ ": ".toList from by decide,
      show "Target syllables: ".toList = "Target syllables".toList ++ ": ".toList from by
        decide,
      show "Section: ".toList = "Section".toList ++ ": ".toList from by decide]
    rw [List.append_assoc, List.append_assoc, List.append_assoc]
    rw [hint_part_eq, hint_part_eq, hint_part_eq, hint_part_eq, hint_part_eq]
  refine ⟨hmain, ?_⟩
  intro hall
  simp only [Bool.or_eq_false_iff] at hall
  unfold _hints_from_payload
  simp [hall.1.1.1.1, hall.1.1.1.2, hall.1.1.2, hall.1.2, hall.2]

/-- Witness for C4 at a payload with no hints present. -/
theorem c4_hints_assembly_witness :
    _hints_from_payload samplePayload = specHintsAnnotation samplePayload ∧
      _hints_from_payload samplePayload = [] :=
  ⟨(c4_hints_assembly samplePayload).1,
   (c4_hints_assembly samplePayload).2 (by decide)⟩

/-- C5 (confirmed): for a non-empty raw output containing a line-boundary
character, the sanitised result exists, contains no line-boundary
character, and equals the sanitised form of only the first line (the
longest boundary-free prefix); when that first line is itself non-empty,
post-processing the whole output and post-processing just the first line
agree. -/
theorem c5_first_line_only (t : List Char) (hne : t ≠ [])
    (hbr : ∃ c ∈ t, pyIsLineBoundary c = true) :
    (∃ r, _postprocess_single_line t = some r ∧
        ∀ c ∈ r, pyIsLineBoundary c = false) ∧
    _postprocess_single_line t =
      some (sanitizeCore (t.takeWhile (fun c => !pyIsLineBoundary c))) ∧
    (t.takeWhile (fun c => !pyIsLineBoundary c) ≠ [] →
      _postprocess_single_line t =
        _postprocess_single_line (t.takeWhile (fun c => !pyIsLineBoundary c))) := by
  refine ⟨⟨_, postprocess_eq hne, ?_⟩, postprocess_eq hne, ?_⟩
  · intro c hc
    exact noBoundary_sanitizeCore hc
  · intro htw
    rw [postprocess_eq hne, postprocess_eq htw, List.takeWhile_idem]

/-- Witness for C5 at a two-line raw output. -/
theorem c5_first_line_only_witness :
    (∃ r, _postprocess_single_line "ab\ncd".toList = some r ∧
        ∀ c ∈ r, pyIsLineBoundary c = false) ∧
    _postprocess_single_line "ab\ncd".toList =
      some (sanitizeCore ("ab\ncd".toList.takeWhile (fun c => !pyIsLineBoundary c))) ∧
    ("ab\ncd".toList.takeWhile (fun c => !pyIsLineBoundary c) ≠ [] →
      _postprocess_single_line "ab\ncd".toList =
        _postprocess_single_line
          ("ab\ncd".toList.takeWhile (fun c => !pyIsLineBoundary c))) :=
  c5_first_line_only "ab\ncd".toList (by decide) (by decide)

/-- C6 (confirmed): every sanitised result has at most 180 characters. -/
theorem c6_length_cap (t r : List Char)
    (h : _postprocess_single_line t = some r) : r.length ≤ 180 := by
  rcases postprocess_some_sanitize h with ⟨line, rfl⟩
  exact length_sanitizeCore line

set_option maxRecDepth 4000 in
/-- Witness for C6 at a 300-character raw output. -/
theorem c6_length_cap_witness :
    (List.replicate 180 (Char.ofNat 97)).length ≤ 180 :=
  c6_length_cap (List.replicate 300 (Char.ofNat 97))
    (List.replicate 180 (Char.ofNat 97)) (by decide)

/-- C7 (confirmed): noninterference of the inert request fields — two
payloads that agree on `userLyrics`, `contextFocus`, `contextFull` and the
five hint fields assemble identical prompt inputs and, for any model
behaviour, produce identical results, whatever their `songId`,
`useReferences`, `temperature`, `k`, `minSim`, `mmr`, `stream`. -/
theorem c7_inert_fields (invoke : PromptInputs → List Char) (p q : Payload)
    (h1 : p.userLyrics = q.userLyrics) (h2 : p.contextFocus = q.contextFocus)
    (h3 : p.contextFull = q.contextFull) (h4 : p.style = q.style)
    (h5 : p.mood = q.mood) (h6 : p.scheme = q.scheme)
    (h7 : p.syllables = q.syllables) (h8 : p.sectionKind = q.sectionKind) :
    assembleInputs p = assembleInputs q ∧
      inspire_one_line invoke p = inspire_one_line invoke q := by
  have hin : assembleInputs p = assembleInputs q := by
    unfold assembleInputs _hints_from_payload
    rw [h1, h2, h3, h4, h5, h6, h7, h8]
  refine ⟨hin, ?_⟩
  unfold inspire_one_line
  rw [hin]

/-- Witness for C7: `samplePayload` against a copy with every inert field
changed. -/
theorem c7_inert_fields_witness :
    assembleInputs samplePayload =
        assembleInputs { samplePayload with
          songId := some "abc".toList, useReferences := true, temperature := 0,
          k := 99, minSim := 1, mmr := false, stream := true } ∧
      inspire_one_line (fun _ => "next line".toList) samplePayload =
        inspire_one_line (fun _ => "next line".toList)
          { samplePayload with
            songId := some "abc".toList, useReferences := true, temperature := 0,
            k := 99, minSim := 1, mmr := false, stream := true } :=
  c7_inert_fields (fun _ => "next line".toList) _ _ rfl rfl rfl rfl rfl rfl rfl rfl

/-- C8 (confirmed): the ingest stub always reports `ok = true` and counts
exactly the lines of the text that are non-empty after stripping leading
and trailing whitespace; being a pure function of the text, it stores
nothing and has no other effect. -/
theorem c8_ingest_counts (p : IngestSnapshot) :
    (ingest_snapshot p).ok = true ∧
    (ingest_snapshot p).linesProcessed =
      (pySplitlines p.text).countP
        (fun ln => !(stripChars pyIsSpace ln).isEmpty) := by
  refine ⟨rfl, ?_⟩
  unfold ingest_snapshot split_lines
  exact length_filterMap_strip (pySplitlines p.text)

/-- C9 (confirmed): `_postprocess_single_line` faults on the empty string
(Python `"".splitlines()` is `[]`, so indexing `[0]` raises `IndexError`),
but on every non-empty string it returns a value; consequently
`inspire_one_line`, whose empty-output check precedes the call, can never
surface that `IndexError`. -/
theorem c9_empty_faults_guarded :
    _postprocess_single_line [] = none ∧
    (∀ t : List Char, t ≠ [] → (_postprocess_single_line t).isSome = true) ∧
    (∀ (invoke : PromptInputs → List Char) (p : Payload),
      inspire_one_line invoke p ≠ Except.error LlmError.indexError) := by
  refine ⟨rfl, ?_, ?_⟩
  · intro t ht
    rw [postprocess_eq ht]
    rfl
  · intro invoke p
    unfold inspire_one_line
    by_cases hraw : (invoke (assembleInputs p)).isEmpty
    · simp [hraw]
    · have hne : invoke (assembleInputs p) ≠ [] := by
        simpa [List.isEmpty_iff] using hraw
      simp [hraw, postprocess_eq hne]

/-- Witness for C9 at concrete inputs. -/
theorem c9_empty_faults_guarded_witness :
    (_postprocess_single_line "x".toList).isSome = true ∧
      inspire_one_line (fun _ => "x".toList) samplePayload ≠
        Except.error LlmError.indexError :=
  ⟨c9_empty_faults_guarded.2.1 "x".toList (by decide),
   c9_empty_faults_guarded.2.2 (fun _ => "x".toList) samplePayload⟩

/-- C10 (confirmed): the `/suggest` stub returns, for every request, the
first line of the stripped `userLyrics` concatenated with the fixed
streetlights suffix, truncated to at most 280 characters (not 180), with
empty `usedVoiceIds` and `usedReferenceIds`, all token counts zero — and
its result is independent of the language model (it never calls it). -/
theorem c10_suggest_stub (invoke : PromptInputs → List Char)
    (req : SuggestRequest) (lat : Nat) :
    (suggest invoke req lat).suggestion =
      ((stripChars pyIsSpace req.userLyrics ++ streetlightSuffix).takeWhile
        (fun c => !pyIsLineBoundary c)).take 280 ∧
    (suggest invoke req lat).usedVoiceIds = [] ∧
    (suggest invoke req lat).usedReferenceIds = [] ∧
    (suggest invoke req lat).tokens = { prompt := 0, completion := 0, total := 0 } ∧
    (suggest invoke req lat).latencyMs = lat ∧
    (∀ invoke2, suggest invoke req lat = suggest invoke2 req lat) := by
  have hsuf : streetlightSuffix ≠ [] := by decide
  have hne : stripChars pyIsSpace req.userLyrics ++ streetlightSuffix ≠ [] := by
    intro hcon
    exact hsuf (List.append_eq_nil.mp hcon).2
  rcases pySplitlines_head hne with ⟨rest, hr⟩
  refine ⟨?_, rfl, rfl, rfl, rfl, fun _ => rfl⟩
  show ((pySplitlines
      (stripChars pyIsSpace req.userLyrics ++ streetlightSuffix)).headD []).take 280 = _
  rw [hr]
  rfl

/-! ### End-to-end scenarios from the specification -/

example :
    _postprocess_single_line
        "  'Under a sky that forgot how to shine'\n(alt: another line)\n".toList =
      some "Under a sky that forgot how to shine".toList := by decide

example :
    _hints_from_payload
        { samplePayload with style := some "blues".toList,
                             mood := some "melancholy".toList } =
      "HINTS:\nStyle: blues | Mood: melancholy".toList := by decide

example : pySplitlines "ab\r\ncd\n".toList = ["ab".toList, "cd".toList] := by decide

example : collapseWs "a \t b".toList = "a b".toList := by decide

end Songbook
